import Mathlib

/-!
Verification of the bride command channel (src/server/mod.rs and
src/server/queue.rs): frame codec, response parser, and the
CommandQueue / ServerHandle state machine, shallowly embedded in Lean.
Bytes are modelled as natural numbers (the code only produces values
below 256), byte streams as lists, and the concurrent I/O worker as
explicit environment steps (deliver a decoded payload / peer close).
-/

namespace Bride

/-! ## Frame codec (src/server/mod.rs, worker thread)

The Send branch writes MESSAGE_DELIMITER (0xAAAAAAAA, little endian),
then the payload length as a u32 (little endian, hence truncated mod
2^32), then the payload bytes.  The Receive branch peeks 8 bytes; with
fewer than 8 available it keeps waiting; once 8 are available it
consumes them, and if the first 4 equal the delimiter it reads exactly
`length` further bytes, otherwise it loops and tries again on the rest
of the stream. -/

/-- The wire magic constant 0xAAAAAAAA as its four little-endian bytes. -/
def MAGIC : List Nat := [0xAA, 0xAA, 0xAA, 0xAA]

/-- Little-endian u32 encoding, as in `(msg.len() as u32).to_le_bytes()`. -/
def toLE4 (n : Nat) : List Nat :=
  [n % 256, n / 256 % 256, n / 65536 % 256, n / 16777216 % 256]

/-- Little-endian u32 decoding of four bytes, as in `u32::from_le_bytes`. -/
def fromLE4 (a b c d : Nat) : Nat := a + 256 * (b + 256 * (c + 256 * d))

/-- The frame written by the worker in the `Message::Send` branch:
magic, u32 little-endian length (truncated like `as u32`), payload. -/
def encode (msg : List Nat) : List Nat :=
  MAGIC ++ toLE4 (msg.length % 4294967296) ++ msg

/-- Result of attempting to decode one frame from the bytes available so
far on a still-open stream: either a complete payload together with the
unconsumed rest of the stream, or not-enough-bytes-yet. -/
inductive DecodeResult
  | complete (payload rest : List Nat)
  | incomplete
  deriving DecidableEq

/-- One pass of the worker `Message::Receive` loop, fuelled so that it
is structurally recursive (each iteration consumes 8 bytes).  Fewer than
8 bytes available: keep waiting.  With 8 header bytes available they are
consumed; on a bad magic the loop silently continues on the remainder;
on a good magic exactly `length` payload bytes are read once they are
available. -/
def tryDecodeGo (fuel : Nat) (s : List Nat) : DecodeResult :=
  match fuel with
  | 0 => .incomplete
  | f + 1 =>
    match s with
    | m0 :: m1 :: m2 :: m3 :: l0 :: l1 :: l2 :: l3 :: rest =>
      if [m0, m1, m2, m3] = MAGIC then
        let n := fromLE4 l0 l1 l2 l3
        if rest.length < n then .incomplete
        else .complete (rest.take n) (rest.drop n)
      else tryDecodeGo f rest
    | _ => .incomplete

/-- Decode one frame from the bytes available so far.  The fuel
`s.length` is enough because every loop iteration consumes 8 bytes. -/
def tryDecode (s : List Nat) : DecodeResult :=
  tryDecodeGo s.length s

/-! ## String helpers mirroring the Rust standard library pieces the
source uses (`str::lines`, `str::trim`, `str::split`, `str::split_once`,
`str::starts_with`).  They are written over character lists by
structural recursion so that every concrete evaluation reduces. -/

/-- Whether `p` is a prefix of `l` (Rust `str::starts_with`). -/
def isPrefixOfChars (p l : List Char) : Bool :=
  match p, l with
  | [], _ => true
  | _ :: _, [] => false
  | a :: p', b :: l' => a == b && isPrefixOfChars p' l'

/-- Rust `str::starts_with` on strings. -/
def rustStartsWith (s p : String) : Bool :=
  isPrefixOfChars p.data s.data

/-- Rust `str::trim`: drop whitespace from both ends. -/
def trimChars (l : List Char) : List Char :=
  ((l.dropWhile Char.isWhitespace).reverse.dropWhile Char.isWhitespace).reverse

/-- Rust `str::trim` on strings. -/
def rustTrim (s : String) : String :=
  String.mk (trimChars s.data)

/-- The fuelled worker for `splitOnChars`; the fuel only needs to cover
the list length plus one. -/
def splitOnGo (sep : List Char) (fuel : Nat) (acc l : List Char) :
    List (List Char) :=
  match fuel with
  | 0 => [acc.reverse ++ l]
  | f + 1 =>
    if isPrefixOfChars sep l then
      acc.reverse :: splitOnGo sep f [] (l.drop sep.length)
    else
      match l with
      | [] => [acc.reverse]
      | c :: rest => splitOnGo sep f (c :: acc) rest

/-- Rust `str::split` with a non-empty literal separator: split at every
leftmost non-overlapping occurrence, keeping empty pieces. -/
def splitOnChars (sep l : List Char) : List (List Char) :=
  if sep.isEmpty then [l] else splitOnGo sep (l.length + 1) [] l

/-- Rust `str::split` on strings. -/
def rustSplitOn (s sep : String) : List String :=
  (splitOnChars sep.data s.data).map String.mk

/-- Joining with a line-feed separator (the `rest` accumulation loop in
`analyze_response`, and Rust `[..].join("\n")`). -/
def joinNLChars (xs : List (List Char)) : List Char :=
  match xs with
  | [] => []
  | [x] => x
  | x :: rest => x ++ '\n' :: joinNLChars rest

/-- Joining strings with a line feed. -/
def rustJoinNL (xs : List String) : String :=
  String.mk (joinNLChars (xs.map String.data))

/-- Rust `str::lines`: split on a line feed, drop the empty piece a
trailing line feed produces, and strip one trailing carriage return
from each line. -/
def rustLines (s : String) : List String :=
  let parts := rustSplitOn s "\n"
  let parts := if parts.getLast? = some "" then parts.dropLast else parts
  parts.map (fun l =>
    match l.data.reverse with
    | '\r' :: t => String.mk t.reverse
    | _ => l)

/-- Rust `str::split_once(char::is_whitespace)` on a character list:
split at the first whitespace character, which is itself dropped. -/
def splitOnceWSAux (l : List Char) : Option (List Char × List Char) :=
  match l with
  | [] => none
  | c :: rest =>
    if c.isWhitespace then some ([], rest)
    else
      match splitOnceWSAux rest with
      | some (a, b) => some (c :: a, b)
      | none => none

/-- Rust `str::split_once(char::is_whitespace)` on a string. -/
def rustSplitOnceWS (s : String) : Option (String × String) :=
  match splitOnceWSAux s.toList with
  | some (a, b) => some (String.mk a, String.mk b)
  | none => none

/-! ## Response model and parser (src/server/queue.rs) -/

/-- Source `Response` from src/server/queue.rs. -/
inductive Response
  | Success (header body : String)
  | Error (header body : String)
  | Nothing
  deriving DecidableEq

/-- Source `Response::result`. -/
def Response.result (r : Response) : String :=
  match r with
  | .Success _ b => b
  | .Error _ b => b
  | .Nothing => ""

/-- The header string a response carries (`c` in the Rust match). -/
def Response.header (r : Response) : String :=
  match r with
  | .Success c _ => c
  | .Error c _ => c
  | .Nothing => ""

/-- Source `Response::identifier`: the part of the header before the first
whitespace character, or the whole header if it has none. -/
def Response.identifier (r : Response) : String :=
  match rustSplitOnceWS r.header with
  | some (id, _) => id
  | none => r.header

/-- Source `Response::args`: the part of the header after the first whitespace
character, or the empty string if it has none (`unwrap_or_default`). -/
def Response.args (r : Response) : String :=
  match rustSplitOnceWS r.header with
  | some (_, a) => a
  | none => ""

/-- Source `Response::decompose`: `(is_error, identifier, args, result)`. -/
def Response.decompose (r : Response) : Bool × String × String × String :=
  (match r with | .Error _ _ => true | _ => false, r.identifier, r.args, r.result)

/-- Source `CommandQueue::analyze_response`: take the trimmed first line, split
it on the two-character separator; exactly two pieces whose second is
the OK or ERROR signal give a real response whose body is the remaining
trimmed lines re-joined with line feeds; everything else is Nothing. -/
def analyze_response (response : String) : Response :=
  match (rustLines response).map rustTrim with
  | [] => .Nothing
  | first :: restLines =>
    let rest := rustJoinNL restLines
    match (rustSplitOn first "::").map rustTrim with
    | [h, s] =>
      if s = "<OK>" then .Success h rest
      else if s = "<ERROR>" then .Error h rest
      else .Nothing
    | _ => .Nothing

/-! ## Transport link (src/server/mod.rs, `ServerHandle`)

The worker thread is modelled by two fields: `workerAlive` says whether
the worker still holds its message sender (it drops it by exiting after
a zero-length read), and `channel` holds the decoded payloads it has
sent but the handle has not yet pulled with `try_recv`.  `responses` is
the `VecDeque` owned by the handle.  Nothing in the source ever resets
`connected` to false after a successful connect. -/

structure ServerHandle where
  connected : Bool
  workerAlive : Bool
  channel : List String
  responses : List String
  deriving DecidableEq

/-- Source `ServerHandle::update`: when connected, one `try_recv` on the
worker channel; a pending message is moved to `responses`; an empty
channel whose sender was dropped is the Disconnected error; otherwise
nothing happens.  Pairs the new handle with an error message if any. -/
def ServerHandle.update (s : ServerHandle) : ServerHandle × Option String :=
  if s.connected then
    match s.channel with
    | m :: rest => ({ s with channel := rest, responses := s.responses ++ [m] }, none)
    | [] =>
      if s.workerAlive then (s, none)
      else (s, some "Disconnected from server.")
  else (s, none)

/-- Source `ServerHandle::receive`: pop the front of the response queue. -/
def ServerHandle.receive (s : ServerHandle) : Option String × ServerHandle :=
  match s.responses with
  | [] => (none, s)
  | m :: rest => (some m, { s with responses := rest })

/-- Source `ServerHandle::send`: an error when not connected; when connected,
the two channel sends to the worker fail exactly when the worker has
exited (its receiver was dropped); otherwise the command goes out on
the wire, which is invisible to this state. -/
def ServerHandle.send (s : ServerHandle) (_message : String) : ServerHandle × Option String :=
  if s.connected then
    if s.workerAlive then (s, none)
    else (s, some "sending on a closed channel")
  else (s, some "Not connected.")

/-! ## Dispatcher (src/server/queue.rs, `CommandQueue`) -/

/-- Source `ClientState` (the local dispatch state). -/
inductive ClientState
  | Disconnected
  | WaitingForResponse
  | WaitingForRetrieval
  | Processing
  | Idle
  deriving DecidableEq

/-- Source `ServerState` (the remote session state). -/
inductive ServerState
  | Disconnected
  | Idle
  | Ready
  | Prompt
  | Paused
  | Finished
  deriving DecidableEq

/-- Source `CommandQueue`. -/
structure CommandQueue where
  server_state : ServerState
  server : Option ServerHandle
  commands : List String
  waiting : Option String
  response : Option Response
  deriving DecidableEq

/-- Source `CommandQueue::new` / `Default`. -/
def CommandQueue.new : CommandQueue :=
  { server_state := .Disconnected, server := none,
    commands := [], waiting := none, response := none }

/-- Source `CommandQueue::connected`. -/
def CommandQueue.connected (q : CommandQueue) : Bool :=
  match q.server with
  | some s => s.connected
  | none => false

/-- Source `CommandQueue::send` (enqueue): unless the remote session is
Paused, append the trimmed command to the queue tail. -/
def CommandQueue.send (q : CommandQueue) (command : String) : CommandQueue :=
  if q.server_state = .Paused then q
  else { q with commands := q.commands ++ [rustTrim command] }

/-- Source `CommandQueue::receive` (take_response): take the published
response, if any. -/
def CommandQueue.receive (q : CommandQueue) : Option Response × CommandQueue :=
  (q.response, { q with response := none })

/-- Source `CommandQueue::internal_state`, computed from the three
observables exactly as in the source. -/
def CommandQueue.internal_state (q : CommandQueue) : ClientState :=
  if q.connected = false then .Disconnected
  else if q.waiting.isSome && q.response.isNone then .WaitingForResponse
  else if q.waiting.isNone && q.response.isSome then .WaitingForRetrieval
  else if q.commands.isEmpty = false then .Processing
  else .Idle

/-- The sentinel classification inside `CommandQueue::update_server_state`:
which new server state the prefix of a payload selects, if any. -/
def sentinel_state (message : String) : Option ServerState :=
  if rustStartsWith message "<READY>" then some .Ready
  else if rustStartsWith message "<PAUSE>" then some .Paused
  else if rustStartsWith message "<EXIT>" then some .Finished
  else if rustStartsWith message "monster>" then some .Prompt
  else none

/-- Source `CommandQueue::update_server_state`: assign the state selected by
the payload, or fail (second component false) leaving the state
untouched. -/
def CommandQueue.update_server_state (q : CommandQueue) (message : String) :
    CommandQueue × Bool :=
  match sentinel_state message with
  | some st => ({ q with server_state := st }, true)
  | none => (q, false)

/-- Source `CommandQueue::prompt`. -/
def CommandQueue.prompt (q : CommandQueue) : Bool :=
  match q.server_state, q.internal_state with
  | .Prompt, .Idle => true
  | _, _ => false

/-- Source `CommandQueue::paused`. -/
def CommandQueue.paused (q : CommandQueue) : Bool :=
  q.server_state = .Paused

/-- Source `CommandQueue::finished`. -/
def CommandQueue.finished (q : CommandQueue) : Bool :=
  q.server_state = .Finished

/-- The `server.update()?` prologue of `CommandQueue::update`. -/
def CommandQueue.serverUpdate (q : CommandQueue) : CommandQueue × Option String :=
  match q.server with
  | some s =>
    let p := s.update
    ({ q with server := some p.1 }, p.2)
  | none => (q, none)

/-- The body of `CommandQueue::update` after the prologue: the match on
`internal_state`.  Mirrors the source branch by branch, including the
mutation order (a received message is consumed even on the error
path). -/
def CommandQueue.dispatch (q : CommandQueue) : CommandQueue × Option String :=
  match q.internal_state with
  | .Disconnected => (q, none)
  | .WaitingForResponse =>
    match q.server with
    | some s =>
      match s.receive with
      | (some response, s') =>
        let q1 := { q with server := some s' }
        let analysis := analyze_response response
        if analysis = .Nothing then
          let p := q1.update_server_state response
          if p.2 then (p.1, none)
          else (p.1, some ("Unrecognized message from server: " ++ response))
        else
          ({ q1 with response := some analysis, waiting := none }, none)
      | (none, s') => ({ q with server := some s' }, none)
    | none => (q, none)
  | .WaitingForRetrieval | .Idle =>
    if q.prompt then (q, none)
    else
      match q.server with
      | some s =>
        match s.receive with
        | (some msg, s') =>
          let q1 := { q with server := some s' }
          let p := q1.update_server_state msg
          if p.2 then (p.1, none)
          else (p.1, some ("Unrecognized message from server: " ++ msg))
        | (none, s') => ({ q with server := some s' }, none)
      | none => (q, none)
  | .Processing =>
    match q.server with
    | some s =>
      match q.commands with
      | command :: restCmds =>
        let p := s.send command
        let q1 := { q with server := some p.1, commands := restCmds }
        match p.2 with
        | some err => (q1, some err)
        | none => ({ q1 with waiting := some command }, none)
      | [] => (q, none)
    | none => (q, none)

/-- Source `CommandQueue::update` (advance): run the prologue, propagate its
error, otherwise dispatch on the internal state. -/
def CommandQueue.update (q : CommandQueue) : CommandQueue × Option String :=
  let p := q.serverUpdate
  match p.2 with
  | some e => (p.1, some e)
  | none => p.1.dispatch

/-! ## Environment steps

The visible effects of the worker thread, as explicit steps: delivering one
decoded payload into the channel, and exiting after a zero-length read
(dropping its sender).  A successful `CommandQueue::connect` installs a
fresh connected handle with a live worker and sets the session state to
Idle. -/

/-- The handle right after a successful `ServerHandle::connect`. -/
def freshHandle : ServerHandle :=
  { connected := true, workerAlive := true, channel := [], responses := [] }

/-- A successful `CommandQueue::connect`. -/
def CommandQueue.connectOk (q : CommandQueue) : CommandQueue :=
  { q with server := some freshHandle, server_state := .Idle }

/-- The worker decodes a frame with payload `m` and sends it. -/
def CommandQueue.deliver (q : CommandQueue) (m : String) : CommandQueue :=
  match q.server with
  | some s => { q with server := some { s with channel := s.channel ++ [m] } }
  | none => q

/-- The worker observes a zero-length read and exits, dropping its
sender; the `connected` field is not touched by anything. -/
def CommandQueue.peerClose (q : CommandQueue) : CommandQueue :=
  match q.server with
  | some s => { q with server := some { s with workerAlive := false } }
  | none => q

/-- One step of the whole system: a consumer operation, an `update`
tick, or a worker event.  Worker events are allowed at any time, which
over-approximates the real interleavings. -/
inductive Step : CommandQueue → CommandQueue → Prop
  | connect (q : CommandQueue) (h : q.connected = false) : Step q q.connectOk
  | send (q : CommandQueue) (cmd : String) : Step q (q.send cmd)
  | receive (q : CommandQueue) : Step q (q.receive).2
  | update (q : CommandQueue) : Step q (q.update).1
  | deliver (q : CommandQueue) (m : String) : Step q (q.deliver m)
  | close (q : CommandQueue) : Step q q.peerClose

/-- States reachable from a fresh `CommandQueue`. -/
inductive Reachable : CommandQueue → Prop
  | init : Reachable CommandQueue.new
  | step {q q' : CommandQueue} : Reachable q → Step q q' → Reachable q'

/-- The mutual-exclusion invariant of the spec: never both an
outstanding command and a published response. -/
def Inv (q : CommandQueue) : Prop :=
  ¬(q.waiting.isSome = true ∧ q.response.isSome = true)

/-! ## Frame codec lemmas -/

lemma tryDecodeGo_nil (f : Nat) : tryDecodeGo f [] = .incomplete := by
  cases f <;> rfl

/-- The result of the decode loop does not depend on the fuel, as long as
the fuel covers the stream length. -/
lemma tryDecodeGo_congr (f₁ : Nat) :
    ∀ (f₂ : Nat) (s : List Nat), s.length ≤ f₁ → s.length ≤ f₂ →
      tryDecodeGo f₁ s = tryDecodeGo f₂ s := by
  induction f₁ with
  | zero =>
    intro f₂ s h₁ _
    have hs : s = [] := List.length_eq_zero.mp (Nat.le_zero.mp h₁)
    subst hs
    simp [tryDecodeGo_nil]
  | succ f ih =>
    intro f₂ s h₁ h₂
    cases f₂ with
    | zero =>
      have hs : s = [] := List.length_eq_zero.mp (Nat.le_zero.mp h₂)
      subst hs
      simp [tryDecodeGo_nil]
    | succ g =>
      rcases s with _ | ⟨a0, _ | ⟨a1, _ | ⟨a2, _ | ⟨a3, _ | ⟨a4, _ | ⟨a5, _ | ⟨a6, _ | ⟨a7, t⟩⟩⟩⟩⟩⟩⟩⟩
      · rfl
      · rfl
      · rfl
      · rfl
      · rfl
      · rfl
      · rfl
      · rfl
      · by_cases hm : [a0, a1, a2, a3] = MAGIC
        · simp only [tryDecodeGo, hm, if_true]
        · have hl : t.length ≤ f := by
            simp only [List.length_cons] at h₁; omega
          have hl₂ : t.length ≤ g := by
            simp only [List.length_cons] at h₂; omega
          simp only [tryDecodeGo, hm, if_false]
          exact ih g t hl hl₂

/-- With fewer than 8 bytes available the decoder reports incomplete. -/
lemma tryDecode_short (s : List Nat) (h : s.length < 8) :
    tryDecode s = .incomplete := by
  rcases s with _ | ⟨a0, _ | ⟨a1, _ | ⟨a2, _ | ⟨a3, _ | ⟨a4, _ | ⟨a5, _ | ⟨a6, _ | ⟨a7, t⟩⟩⟩⟩⟩⟩⟩⟩
  · rfl
  · rfl
  · rfl
  · rfl
  · rfl
  · rfl
  · rfl
  · rfl
  · exact absurd h (by simp)

/-- Unfolding the decoder on a stream that starts with a valid magic
header. -/
lemma tryDecode_cons8 (b0 b1 b2 b3 : Nat) (rest : List Nat) :
    tryDecode (170 :: 170 :: 170 :: 170 :: b0 :: b1 :: b2 :: b3 :: rest) =
      if rest.length < fromLE4 b0 b1 b2 b3 then .incomplete
      else .complete (rest.take (fromLE4 b0 b1 b2 b3))
        (rest.drop (fromLE4 b0 b1 b2 b3)) := by
  show tryDecodeGo (rest.length + 8) _ = _
  simp only [tryDecodeGo, MAGIC]
  norm_num

/-- Unfolding the decoder on a stream that starts with a bad magic
header: the 8 bytes are silently skipped. -/
lemma tryDecode_skip (m0 m1 m2 m3 l0 l1 l2 l3 : Nat) (rest : List Nat)
    (h : [m0, m1, m2, m3] ≠ MAGIC) :
    tryDecode (m0 :: m1 :: m2 :: m3 :: l0 :: l1 :: l2 :: l3 :: rest) =
      tryDecode rest := by
  show tryDecodeGo (rest.length + 8) _ = tryDecodeGo rest.length rest
  simp only [tryDecodeGo, h, if_false]
  exact tryDecodeGo_congr (rest.length + 7) rest.length rest (by omega) le_rfl

/-- The encoder, written out byte by byte. -/
lemma encode_eq (msg : List Nat) :
    encode msg =
      170 :: 170 :: 170 :: 170 ::
      (msg.length % 4294967296 % 256) ::
      (msg.length % 4294967296 / 256 % 256) ::
      (msg.length % 4294967296 / 65536 % 256) ::
      (msg.length % 4294967296 / 16777216 % 256) :: msg := by
  simp [encode, MAGIC, toLE4]

lemma encode_length (msg : List Nat) : (encode msg).length = 8 + msg.length := by
  rw [encode_eq]
  simp only [List.length_cons]
  omega

/-- Little-endian u32 decode of the encode of `n` recovers `n` below
2^32. -/
lemma fromLE4_toLE4 (n : Nat) (h : n < 4294967296) :
    fromLE4 (n % 256) (n / 256 % 256) (n / 65536 % 256) (n / 16777216 % 256) = n := by
  unfold fromLE4
  omega

/-- Decoding an encoded frame recovers the payload with no leftover,
for payloads whose length fits the u32 length field. -/
lemma tryDecode_encode (msg : List Nat) (h : msg.length < 4294967296) :
    tryDecode (encode msg) = .complete msg [] := by
  have hm : msg.length % 4294967296 = msg.length := Nat.mod_eq_of_lt h
  rw [encode_eq, hm, tryDecode_cons8, fromLE4_toLE4 msg.length h]
  simp

/-- Decoding any strict prefix of an encoded frame reports incomplete,
for payloads whose length fits the u32 length field. -/
lemma tryDecode_encode_take (msg : List Nat) (h : msg.length < 4294967296)
    (k : Nat) (hk : k < (encode msg).length) :
    tryDecode ((encode msg).take k) = .incomplete := by
  have hm : msg.length % 4294967296 = msg.length := Nat.mod_eq_of_lt h
  rw [encode_length] at hk
  by_cases hk8 : k < 8
  · apply tryDecode_short
    rw [List.length_take, encode_length]
    omega
  · have hj : k = (k - 8) + 8 := by omega
    rw [encode_eq, hm, hj]
    have htake : (170 :: 170 :: 170 :: 170 ::
        (msg.length % 256) :: (msg.length / 256 % 256) ::
        (msg.length / 65536 % 256) :: (msg.length / 16777216 % 256) ::
        msg).take ((k - 8) + 8) =
        170 :: 170 :: 170 :: 170 ::
        (msg.length % 256) :: (msg.length / 256 % 256) ::
        (msg.length / 65536 % 256) :: (msg.length / 16777216 % 256) ::
        (msg.take (k - 8)) := rfl
    rw [htake, tryDecode_cons8, fromLE4_toLE4 msg.length h]
    have hlt : (msg.take (k - 8)).length < msg.length := by
      rw [List.length_take]
      omega
    rw [if_pos hlt]

/-! ## Claim C4: frame codec round trip -/

/-- Any payload of exactly 2^32 bytes is framed with a zero length
field, so decoding its frame yields the empty payload and leaves the
whole payload as unconsumed stream bytes. -/
lemma tryDecode_encode_pow32 (L : List Nat) (h : L.length = 4294967296) :
    tryDecode (encode L) = .complete [] L := by
  rw [encode_eq, h]
  norm_num
  rw [tryDecode_cons8, h]
  norm_num [fromLE4]

/-- C4, counterexample.  The length field is written `as u32`, so a
payload of exactly 2^32 bytes is encoded with length field 0 and the
decoder returns an empty payload with the whole 2^32 bytes left over:
the round-trip law fails as stated for this string. -/
theorem roundtrip_truncation_counterexample :
    tryDecode (encode (List.replicate 4294967296 0)) =
      .complete [] (List.replicate 4294967296 0) ∧
    List.replicate 4294967296 0 ≠ ([] : List Nat) := by
  constructor
  · exact tryDecode_encode_pow32 _ (List.length_replicate 4294967296 0)
  · intro he
    have hlen := congrArg List.length he
    rw [List.length_replicate] at hlen
    exact absurd hlen (by norm_num)

/-- C4, amended: for every string of fewer than 2^32 bytes (the
capacity of the u32 length field), decoding the frame produced by
encoding it yields exactly `complete` with that payload and zero
leftover bytes, and decoding any strict byte prefix of the frame yields
`incomplete` — never an error and never `complete`. -/
theorem frame_roundtrip (msg : List Nat) (h : msg.length < 4294967296) :
    tryDecode (encode msg) = .complete msg [] ∧
    ∀ k, k < (encode msg).length → tryDecode ((encode msg).take k) = .incomplete :=
  ⟨tryDecode_encode msg h, fun k hk => tryDecode_encode_take msg h k hk⟩

/-- C4, witness for the amended round-trip law at the payload
`[104, 105]`. -/
theorem frame_roundtrip_witness :
    tryDecode (encode [104, 105]) = .complete [104, 105] [] ∧
    tryDecode ((encode [104, 105]).take 9) = .incomplete := by
  have h := frame_roundtrip [104, 105] (by norm_num)
  exact ⟨h.1, h.2 9 (by decide)⟩

/-! ## Claim C5: bad magic handling -/

/-- C5, counterexample.  A frame whose first 4 header bytes are not the
magic constant is not a fatal error: the decoder silently consumes the
8 corrupt header bytes and decodes the rest of the stream, here
successfully yielding the payload of the next frame. -/
theorem bad_magic_counterexample :
    ([1, 2, 3, 4] : List Nat) ≠ MAGIC ∧
    tryDecode ([1, 2, 3, 4, 5, 6, 7, 8] ++ encode [65]) = .complete [65] [] := by
  constructor
  · decide
  · decide

/-- C5, amended: when the first 4 of the 8 available header bytes do
not equal the magic constant, the decoder raises no error at all (its
result type has no error case); it silently consumes those 8 bytes and
re-synchronizes, decoding the remainder of the stream as if the corrupt
header had never been there. -/
theorem bad_magic_skipped (m0 m1 m2 m3 l0 l1 l2 l3 : Nat) (rest : List Nat)
    (h : [m0, m1, m2, m3] ≠ MAGIC) :
    tryDecode (m0 :: m1 :: m2 :: m3 :: l0 :: l1 :: l2 :: l3 :: rest) =
      tryDecode rest :=
  tryDecode_skip m0 m1 m2 m3 l0 l1 l2 l3 rest h

/-- C5, witness for the amended claim on a concrete corrupt header. -/
theorem bad_magic_skipped_witness :
    tryDecode (9 :: 9 :: 9 :: 9 :: 0 :: 0 :: 0 :: 0 :: encode [66]) =
      tryDecode (encode [66]) :=
  bad_magic_skipped 9 9 9 9 0 0 0 0 (encode [66]) (by decide)

/-! ## Response parser and decomposition lemmas -/

/-- A character list without whitespace has no split point. -/
lemma splitOnceWSAux_eq_none (l : List Char)
    (h : ∀ c ∈ l, c.isWhitespace = false) : splitOnceWSAux l = none := by
  induction l with
  | nil => rfl
  | cons c rest ih =>
    unfold splitOnceWSAux
    rw [if_neg (by simp [h c (by simp)])]
    rw [ih (fun d hd => h d (by simp [hd]))]

/-- A string without whitespace has no split point. -/
lemma rustSplitOnceWS_eq_none (s : String)
    (h : ∀ c ∈ s.toList, c.isWhitespace = false) : rustSplitOnceWS s = none := by
  unfold rustSplitOnceWS
  rw [splitOnceWSAux_eq_none s.toList h]

/-! ## Claim C10: decompose is total -/

/-- C10: `decompose` succeeds on all three variants: on `Nothing` it
returns `(false, "", "", "")`, and on a `Success` or `Error` whose
header contains no whitespace it returns the whole header as the
identifier with empty args. -/
theorem decompose_total :
    Response.Nothing.decompose = (false, "", "", "") ∧
    ∀ h b : String, (∀ c ∈ h.toList, c.isWhitespace = false) →
      (Response.Success h b).decompose = (false, h, "", b) ∧
      (Response.Error h b).decompose = (true, h, "", b) := by
  refine ⟨by decide, fun h b hws => ?_⟩
  have hn : rustSplitOnceWS h = none := rustSplitOnceWS_eq_none h hws
  constructor <;>
    simp [Response.decompose, Response.identifier, Response.args,
      Response.result, Response.header, hn]

/-- C10, witness at the header `"cmd"`. -/
theorem decompose_total_witness :
    (Response.Success "cmd" "out").decompose = (false, "cmd", "", "out") ∧
    (Response.Error "cmd" "out").decompose = (true, "cmd", "", "out") :=
  decompose_total.2 "cmd" "out" (by decide)

/-! ## Claim C8: concrete parser and dispatcher examples -/

/-- C8: `analyze_response` on a two-line OK payload yields the expected
`Success`, whose decomposition splits identifier and args; the bare
`<READY>` sentinel parses as `Nothing`, and feeding it to the
advance of the dispatcher moves the remote session state to `Ready` without
publishing any response. -/
theorem analyze_examples :
    analyze_response "cmd arg1 :: <OK>\nline1\nline2" =
      .Success "cmd arg1" "line1\nline2" ∧
    (Response.Success "cmd arg1" "line1\nline2").decompose =
      (false, "cmd", "arg1", "line1\nline2") ∧
    analyze_response "<READY>" = .Nothing ∧
    ((CommandQueue.new.connectOk.deliver "<READY>").update).1.server_state =
      .Ready ∧
    ((CommandQueue.new.connectOk.deliver "<READY>").update).1.response = none ∧
    ((CommandQueue.new.connectOk.deliver "<READY>").update).2 = none := by
  refine ⟨by decide, by decide, by decide, by decide, by decide, by decide⟩

/-! ## Claim C7: shape of payloads accepted as responses -/

/-- C7, counterexample.  The parser does not require the two separator
pieces to be non-empty: a payload whose first line has an empty part
before the separator still yields a `Success` with empty header, where
the claim demands `Nothing`. -/
theorem analyze_empty_header_counterexample :
    analyze_response "::<OK>" = .Success "" "" ∧
    (rustSplitOn "::<OK>" "::").map rustTrim = ["", "<OK>"] := by
  constructor
  · decide
  · decide

/-- C7, amended: `analyze_response` yields a `Success` or `Error`
exactly when the trimmed first line splits on the two-character
separator into exactly two parts — possibly empty — whose second,
after trimming, is the OK or ERROR signal; any other shape yields
`Nothing`. -/
theorem analyze_response_shape (p : String) :
    (∃ h b, analyze_response p = .Success h b ∨ analyze_response p = .Error h b) ↔
      ∃ first restLines, (rustLines p).map rustTrim = first :: restLines ∧
        ∃ h s, (rustSplitOn first "::").map rustTrim = [h, s] ∧
          (s = "<OK>" ∨ s = "<ERROR>") := by
  unfold analyze_response
  cases hls : (rustLines p).map rustTrim with
  | nil => simp
  | cons first restLines =>
    simp only [hls]
    cases hsp : (rustSplitOn first "::").map rustTrim with
    | nil => simp [hsp]
    | cons h t =>
      cases t with
      | nil => simp [hsp]
      | cons s t2 =>
        cases t2 with
        | nil =>
          by_cases hok : s = "<OK>"
          · subst hok
            simp only [hsp, if_pos rfl]
            constructor
            · intro _
              exact ⟨first, restLines, rfl, h, "<OK>", hsp, Or.inl rfl⟩
            · intro _
              exact ⟨h, rustJoinNL restLines, Or.inl rfl⟩
          · by_cases herr : s = "<ERROR>"
            · subst herr
              simp only [hsp, if_neg hok, if_pos rfl]
              constructor
              · intro _
                exact ⟨first, restLines, rfl, h, "<ERROR>", hsp, Or.inr rfl⟩
              · intro _
                exact ⟨h, rustJoinNL restLines, Or.inr rfl⟩
            · simp [hsp, hok, herr]
        | cons u t3 => simp [hsp]

/-! ## Claim C9: enqueue semantics -/

/-- C9: enqueue is a no-op exactly when the remote session state is
Paused; otherwise it appends the trimmed command to the queue tail —
regardless of any outstanding command — and changes nothing else. -/
theorem enqueue_paused_iff (q : CommandQueue) (cmd : String) :
    (q.server_state = .Paused → q.send cmd = q) ∧
    (q.server_state ≠ .Paused →
      (q.send cmd).commands = q.commands ++ [rustTrim cmd] ∧
      (q.send cmd).waiting = q.waiting ∧
      (q.send cmd).response = q.response ∧
      (q.send cmd).server = q.server ∧
      (q.send cmd).server_state = q.server_state) ∧
    (q.send cmd = q ↔ q.server_state = .Paused) := by
  unfold CommandQueue.send
  by_cases h : q.server_state = .Paused
  · simp [h]
  · simp only [if_neg h]
    refine ⟨fun hp => absurd hp h, fun _ => by simp, ?_⟩
    constructor
    · intro he
      have hc := congrArg CommandQueue.commands he
      simp only at hc
      have hl := congrArg List.length hc
      simp only [List.length_append, List.length_cons, List.length_nil] at hl
      omega
    · intro hp
      exact absurd hp h

/-- C9, witness: a Paused channel drops the command, a Disconnected one
appends its trimmed form. -/
theorem enqueue_paused_iff_witness :
    ({ CommandQueue.new with server_state := .Paused } :
        CommandQueue).send " quux " =
      { CommandQueue.new with server_state := .Paused } ∧
    (CommandQueue.new.send " quux ").commands = ["quux"] := by
  refine ⟨(enqueue_paused_iff _ " quux ").1 rfl, ?_⟩
  have h :=
    (((enqueue_paused_iff CommandQueue.new " quux ").2.1 (by decide)).1)
  rw [h]
  decide

/-! ## State machine helper lemmas -/

lemma ServerHandle.update_connected (s : ServerHandle) :
    (s.update).1.connected = s.connected := by
  unfold ServerHandle.update
  by_cases hc : s.connected
  · cases hch : s.channel with
    | nil => by_cases hw : s.workerAlive <;> simp [hc, hw]
    | cons m rest => simp [hc]
  · simp [hc]

lemma serverUpdate_waiting (q : CommandQueue) :
    q.serverUpdate.1.waiting = q.waiting := by
  unfold CommandQueue.serverUpdate
  cases q.server <;> rfl

lemma serverUpdate_response (q : CommandQueue) :
    q.serverUpdate.1.response = q.response := by
  unfold CommandQueue.serverUpdate
  cases q.server <;> rfl

lemma serverUpdate_commands (q : CommandQueue) :
    q.serverUpdate.1.commands = q.commands := by
  unfold CommandQueue.serverUpdate
  cases q.server <;> rfl

lemma serverUpdate_server_state (q : CommandQueue) :
    q.serverUpdate.1.server_state = q.server_state := by
  unfold CommandQueue.serverUpdate
  cases q.server <;> rfl

lemma serverUpdate_connected (q : CommandQueue) :
    q.serverUpdate.1.connected = q.connected := by
  unfold CommandQueue.serverUpdate
  cases hs : q.server with
  | none => simp [hs]
  | some s =>
    show (s.update).1.connected = q.connected
    unfold CommandQueue.connected
    rw [hs]
    exact ServerHandle.update_connected s

lemma serverUpdate_internal (q : CommandQueue) :
    q.serverUpdate.1.internal_state = q.internal_state := by
  unfold CommandQueue.internal_state
  rw [serverUpdate_connected, serverUpdate_waiting, serverUpdate_response,
    serverUpdate_commands]

/-- A connected queue holds a connected handle. -/
lemma connected_server (q : CommandQueue) (h : q.connected = true) :
    ∃ s, q.server = some s ∧ s.connected = true := by
  unfold CommandQueue.connected at h
  cases hs : q.server with
  | none => rw [hs] at h; exact absurd h (by simp)
  | some s => rw [hs] at h; exact ⟨s, rfl, h⟩

lemma internal_wfresp {q : CommandQueue}
    (h : q.internal_state = .WaitingForResponse) :
    q.connected = true ∧ q.waiting.isSome = true ∧ q.response = none := by
  unfold CommandQueue.internal_state at h
  cases hc : q.connected <;> rw [hc] at h <;>
    cases hw : q.waiting <;> rw [hw] at h <;>
      cases hr : q.response <;> rw [hr] at h <;>
        cases hcm : q.commands <;> rw [hcm] at h <;> simp_all

lemma internal_wfretr {q : CommandQueue}
    (h : q.internal_state = .WaitingForRetrieval) :
    q.connected = true ∧ q.waiting = none ∧ q.response.isSome = true := by
  unfold CommandQueue.internal_state at h
  cases hc : q.connected <;> rw [hc] at h <;>
    cases hw : q.waiting <;> rw [hw] at h <;>
      cases hr : q.response <;> rw [hr] at h <;>
        cases hcm : q.commands <;> rw [hcm] at h <;> simp_all

lemma internal_processing {q : CommandQueue} (hinv : Inv q)
    (h : q.internal_state = .Processing) :
    q.connected = true ∧ q.waiting = none ∧ q.response = none ∧
      q.commands ≠ [] := by
  unfold CommandQueue.internal_state at h
  unfold Inv at hinv
  cases hc : q.connected <;> rw [hc] at h <;>
    cases hw : q.waiting <;> rw [hw] at h <;>
      cases hr : q.response <;> rw [hr] at h <;>
        cases hcm : q.commands <;> rw [hcm] at h <;> simp_all

lemma internal_eq_processing {q : CommandQueue} (hc : q.connected = true)
    (hw : q.waiting = none) (hr : q.response = none)
    (hcm : q.commands.isEmpty = false) :
    q.internal_state = .Processing := by
  unfold CommandQueue.internal_state
  rw [hc, hw, hr, hcm]
  simp

lemma internal_not_processing {q : CommandQueue}
    (h : (q.waiting.isSome = true ∧ q.response = none) ∨
      (q.waiting = none ∧ q.response.isSome = true)) :
    q.internal_state ≠ .Processing := by
  unfold CommandQueue.internal_state
  rcases h with ⟨hw, hr⟩ | ⟨hw, hr⟩ <;>
    cases hc : q.connected <;> simp [hw, hr]

/-- Only the Processing branch of the dispatch body touches the
outbound queue. -/
lemma dispatch_commands {q : CommandQueue}
    (h : q.internal_state ≠ .Processing) :
    q.dispatch.1.commands = q.commands := by
  unfold CommandQueue.dispatch CommandQueue.update_server_state
  dsimp only
  repeat' split
  all_goals simp_all

/-- The dispatch body preserves the mutual-exclusion invariant. -/
lemma dispatch_inv {q : CommandQueue} (h : Inv q) : Inv q.dispatch.1 := by
  have hPr : q.internal_state = .Processing →
      q.waiting = none ∧ q.response = none :=
    fun hst => ⟨(internal_processing h hst).2.1,
      (internal_processing h hst).2.2.1⟩
  unfold CommandQueue.dispatch CommandQueue.update_server_state
  dsimp only
  repeat' split
  all_goals simp_all [Inv]

/-- When no received message is pending, the dispatch body leaves the
remote session state untouched. -/
lemma dispatch_server_state_quiet {q : CommandQueue}
    (h : ∀ s, q.server = some s → s.responses = []) :
    q.dispatch.1.server_state = q.server_state := by
  unfold CommandQueue.dispatch CommandQueue.update_server_state
    ServerHandle.receive
  dsimp only
  repeat' split
  all_goals simp_all

/-- In the Processing state the dispatch body pops exactly the queue
head and, when the send succeeds, marks it as the outstanding
command. -/
lemma dispatch_processing_send {q : CommandQueue} {c : String}
    {cs : List String} (hc : q.connected = true)
    (hst : q.internal_state = .Processing) (hcm : q.commands = c :: cs) :
    q.dispatch.2 = none →
      q.dispatch.1.waiting = some c ∧ q.dispatch.1.commands = cs := by
  unfold CommandQueue.dispatch CommandQueue.connected at *
  dsimp only
  repeat' split
  all_goals simp_all

/-- Every step of the system preserves the mutual-exclusion
invariant. -/
lemma inv_step {q q' : CommandQueue} (h : Inv q) (hs : Step q q') :
    Inv q' := by
  cases hs with
  | connect hc =>
    unfold CommandQueue.connectOk Inv at *
    simpa using h
  | send cmd =>
    unfold CommandQueue.send Inv at *
    split <;> simpa using h
  | receive =>
    unfold CommandQueue.receive Inv
    simp
  | update =>
    have h1 : Inv q.serverUpdate.1 := by
      unfold Inv
      rw [serverUpdate_waiting, serverUpdate_response]
      exact h
    unfold CommandQueue.update
    dsimp only
    split
    · exact h1
    · exact dispatch_inv h1
  | deliver m =>
    unfold CommandQueue.deliver Inv at *
    cases q.server <;> simpa using h
  | close =>
    unfold CommandQueue.peerClose Inv at *
    cases q.server <;> simpa using h

/-- The mutual-exclusion invariant holds in every reachable state. -/
lemma reachable_inv {q : CommandQueue} (h : Reachable q) : Inv q := by
  induction h with
  | init =>
    unfold Inv CommandQueue.new
    simp
  | step _ hs ih => exact inv_step ih hs

/-! ## Claim C2: waiting and response are mutually exclusive -/

/-- C2: in every reachable state, an outstanding command and a
published response are never present simultaneously, and the advance
step that publishes a freshly-arrived response clears the
awaiting-reply marker in the same step. -/
theorem waiting_response_exclusive (q : CommandQueue) (h : Reachable q) :
    ¬(q.waiting.isSome = true ∧ q.response.isSome = true) ∧
    (q.response = none → (q.update).1.response.isSome = true →
      (q.update).1.waiting = none) := by
  refine ⟨reachable_inv h, fun _ hpub => ?_⟩
  have h' : Inv (q.update).1 :=
    reachable_inv (Reachable.step h (Step.update q))
  unfold Inv at h'
  cases hw : (q.update).1.waiting with
  | none => rfl
  | some c => exact absurd ⟨by rw [hw]; rfl, hpub⟩ h'

/-- C2, witness at the freshly constructed queue. -/
theorem waiting_response_exclusive_witness :
    ¬(CommandQueue.new.waiting.isSome = true ∧
      CommandQueue.new.response.isSome = true) ∧
    (CommandQueue.new.response = none →
      (CommandQueue.new.update).1.response.isSome = true →
      (CommandQueue.new.update).1.waiting = none) :=
  waiting_response_exclusive CommandQueue.new Reachable.init

/-! ## Claim C3: single-flight FIFO sending -/

/-- C3: enqueueing "foo" and "bar" while disconnected leaves both
queued and advance is a no-op; after a successful connect the next
advance sends exactly "foo", the state reads WaitingForResponse, and a
further advance does not send "bar".  In general an advance step sends
exactly the queue head, only from the Processing state, and an advance
step taken with a command outstanding or a response unretrieved leaves
the queue untouched. -/
theorem single_flight_fifo :
    (let q0 := (CommandQueue.new.send "foo").send "bar"
     let q2 := ((q0.connectOk).update).1
     q0.commands = ["foo", "bar"] ∧ q0.connected = false ∧
       (q0.update).1 = q0 ∧ q2.waiting = some "foo" ∧
       q2.commands = ["bar"] ∧ q2.internal_state = .WaitingForResponse ∧
       (q2.update).1 = q2) ∧
    (∀ (q : CommandQueue) (c : String) (cs : List String),
      q.connected = true → q.waiting = none → q.response = none →
      q.commands = c :: cs → (q.update).2 = none →
      (q.update).1.waiting = some c ∧ (q.update).1.commands = cs) ∧
    (∀ q : CommandQueue,
      (q.waiting.isSome = true ∧ q.response = none) ∨
      (q.waiting = none ∧ q.response.isSome = true) →
      (q.update).1.commands = q.commands) := by
  refine ⟨by decide, ?_, ?_⟩
  · intro q c cs hc hw hr hcm he
    have hsu : q.serverUpdate.2 = none := by
      unfold CommandQueue.update at he
      dsimp only at he
      cases hsu : q.serverUpdate.2 with
      | some e => rw [hsu] at he; simp at he
      | none => rfl
    have hupd : q.update = q.serverUpdate.1.dispatch := by
      unfold CommandQueue.update
      dsimp only
      rw [hsu]
    have hq1c : q.serverUpdate.1.connected = true := by
      rw [serverUpdate_connected]; exact hc
    have hq1w : q.serverUpdate.1.waiting = none := by
      rw [serverUpdate_waiting]; exact hw
    have hq1r : q.serverUpdate.1.response = none := by
      rw [serverUpdate_response]; exact hr
    have hq1cm : q.serverUpdate.1.commands = c :: cs := by
      rw [serverUpdate_commands]; exact hcm
    have hst : q.serverUpdate.1.internal_state = .Processing :=
      internal_eq_processing hq1c hq1w hq1r (by rw [hq1cm]; rfl)
    rw [hupd]
    exact dispatch_processing_send hq1c hst hq1cm (by rw [← hupd]; exact he)
  · intro q hcase
    unfold CommandQueue.update
    dsimp only
    cases hsu : q.serverUpdate.2 with
    | some e => simp [serverUpdate_commands]
    | none =>
      have hnp : q.serverUpdate.1.internal_state ≠ .Processing := by
        apply internal_not_processing
        rw [serverUpdate_waiting, serverUpdate_response]
        exact hcase
      simp [dispatch_commands hnp, serverUpdate_commands]

/-- C3, witness: a connected queue holding one queued command sends
exactly it on advance, and a queue with an outstanding command does not
drain its queue on advance. -/
theorem single_flight_fifo_witness :
    ((CommandQueue.new.connectOk.send "ping").update).1.waiting =
      some "ping" ∧
    ((CommandQueue.new.connectOk.send "ping").update).1.commands = [] ∧
    (((((CommandQueue.new.connectOk.send "ping").update).1.send "pong").update).1.commands =
      (((CommandQueue.new.connectOk.send "ping").update).1.send "pong").commands) := by
  have h2 := single_flight_fifo.2.1 (CommandQueue.new.connectOk.send "ping")
    "ping" [] (by decide) (by decide) (by decide) (by decide) (by decide)
  have h3 := single_flight_fifo.2.2
    ((((CommandQueue.new.connectOk.send "ping").update).1.send "pong"))
    (Or.inl ⟨by decide, by decide⟩)
  exact ⟨h2.1, h2.2, h3⟩

/-! ## Claim C6: is Finished terminal? -/

/-- C6, counterexample.  `update_server_state` assigns the state chosen
by the sentinel unconditionally, so after `<EXIT>` has moved the remote
session state to Finished, a later `<READY>` payload moves it back out
to Ready: Finished is not absorbing. -/
theorem finished_not_absorbing :
    (((CommandQueue.new.connectOk.deliver "<EXIT>").update).1.server_state =
      .Finished) ∧
    (((((CommandQueue.new.connectOk.deliver "<EXIT>").update).1.deliver
      "<READY>").update).1.server_state = .Ready) := by
  constructor
  · decide
  · decide

/-- C6, amended: Finished persists under enqueue, take_response, and
advance steps with no pending message, but it is not absorbing: the
sentinel handler overwrites the state regardless of the current state,
so a later recognized sentinel (such as `<READY>`) moves the state out
of Finished. -/
theorem finished_quiescent (q : CommandQueue) (h : q.server_state = .Finished) :
    (∀ cmd, (q.send cmd).server_state = .Finished) ∧
    ((q.receive).2.server_state = .Finished) ∧
    ((∀ s, q.server = some s → s.channel = [] ∧ s.responses = []) →
      (q.update).1.server_state = .Finished) ∧
    (∀ m st, sentinel_state m = some st →
      (q.update_server_state m).1.server_state = st) := by
  refine ⟨?_, ?_, ?_, ?_⟩
  · intro cmd
    unfold CommandQueue.send
    split
    · exact h
    · exact h
  · exact h
  · intro hempty
    unfold CommandQueue.update
    dsimp only
    cases hsu : q.serverUpdate.2 with
    | some e =>
      simp only
      rw [serverUpdate_server_state]
      exact h
    | none =>
      have hq : ∀ s, q.serverUpdate.1.server = some s → s.responses = [] := by
        intro s hs
        unfold CommandQueue.serverUpdate at hs
        cases hqs : q.server with
        | none =>
          rw [hqs] at hs
          exact absurd hs (by simp [hqs])
        | some s0 =>
          rw [hqs] at hs
          dsimp only at hs
          obtain ⟨hch, hresp⟩ := hempty s0 hqs
          have hup : (s0.update).1 = s0 := by
            unfold ServerHandle.update
            rw [hch]
            by_cases hcon : s0.connected <;>
              by_cases hwk : s0.workerAlive <;> simp [hcon, hwk]
          simp only [hup] at hs
          cases hs
          exact hresp
      simp only
      rw [dispatch_server_state_quiet hq, serverUpdate_server_state]
      exact h
  · intro m st hm
    unfold CommandQueue.update_server_state
    rw [hm]

/-- C6, witness at a Finished queue with no connection. -/
theorem finished_quiescent_witness :
    (({ CommandQueue.new with server_state := .Finished } :
        CommandQueue).send "a").server_state = .Finished ∧
    ((({ CommandQueue.new with server_state := .Finished } :
        CommandQueue).update).1.server_state = .Finished) ∧
    ((({ CommandQueue.new with server_state := .Finished } :
        CommandQueue).update_server_state "<READY>").1.server_state = .Ready) := by
  have h := finished_quiescent
    { CommandQueue.new with server_state := .Finished } rfl
  refine ⟨h.1 "a", h.2.2.1 ?_, h.2.2.2 "<READY>" .Ready (by decide)⟩
  intro s hs
  exact absurd hs (by simp [CommandQueue.new])

/-! ## Claim C1: fatal error persistence -/

/-- C1, counterexample.  First, a fatal protocol error (unrecognized
message) is raised only by the advance call that consumes the message;
the next advance call returns no error, so not every fatal error class
persists.  Second, after a peer close the Disconnected error does recur
on every advance, but `connected()` still reports true — the connected
flag is never reset. -/
theorem fatal_error_counterexample :
    (((((CommandQueue.new.connectOk.send "x").update).1.deliver
        "garbage").update).2 =
      some "Unrecognized message from server: garbage" ∧
     (((((CommandQueue.new.connectOk.send "x").update).1.deliver
        "garbage").update).1.update).2 = none) ∧
    (((((CommandQueue.new.connectOk.send "x").update).1.peerClose).update).2 =
      some "Disconnected from server." ∧
     ((((CommandQueue.new.connectOk.send "x").update).1.peerClose).update).1 =
      (((CommandQueue.new.connectOk.send "x").update).1.peerClose) ∧
     (((CommandQueue.new.connectOk.send "x").update).1.peerClose).connected =
      true) := by
  constructor
  · constructor
    · decide
    · decide
  · constructor
    · decide
    · constructor
      · decide
      · decide

/-- C1, amended: once the worker has exited after a zero-length read
(its channel to the dispatcher closed) and the delivery mailbox is
drained, every advance call — now and after any number of further
advance calls — returns the same Disconnected error and leaves the
state unchanged; `connected()` however continues to report true. -/
theorem disconnected_persists (q : CommandQueue) (s : ServerHandle)
    (hs : q.server = some s) (hc : s.connected = true)
    (hw : s.workerAlive = false) (hch : s.channel = []) :
    q.update = (q, some "Disconnected from server.") ∧
    q.connected = true ∧
    ∀ n, ((fun r : CommandQueue => (r.update).1)^[n] q).update.2 =
      some "Disconnected from server." := by
  have hsup : s.update = (s, some "Disconnected from server.") := by
    unfold ServerHandle.update
    rw [hch]
    simp [hc, hw]
  have hq1 : ({ q with server := some s } : CommandQueue) = q := by
    rw [← hs]
  have hsu : q.serverUpdate = (q, some "Disconnected from server.") := by
    unfold CommandQueue.serverUpdate
    rw [hs]
    dsimp only
    rw [hsup]
    dsimp only
    rw [hq1]
  have hupd : q.update = (q, some "Disconnected from server.") := by
    unfold CommandQueue.update
    dsimp only
    rw [hsu]
  refine ⟨hupd, ?_, ?_⟩
  · unfold CommandQueue.connected
    rw [hs]
    exact hc
  · intro n
    induction n with
    | zero =>
      simp only [Function.iterate_zero_apply, hupd]
    | succ n ih =>
      rw [Function.iterate_succ_apply]
      simp only [hupd]
      exact ih

/-- C1, witness: a freshly connected queue whose worker then exits. -/
theorem disconnected_persists_witness :
    (CommandQueue.new.connectOk.peerClose).update =
      (CommandQueue.new.connectOk.peerClose,
        some "Disconnected from server.") ∧
    (CommandQueue.new.connectOk.peerClose).connected = true := by
  have h := disconnected_persists (CommandQueue.new.connectOk.peerClose)
    { connected := true, workerAlive := false, channel := [], responses := [] }
    (by decide) rfl rfl rfl
  exact ⟨h.1, h.2.1⟩

end Bride
